import Mathlib

/-!
Verification development for `src/loadPageFunctions.js`, a loader that adapts
Cloudflare-Pages-style file routing onto a Hono router.

The JavaScript source is shallowly embedded: pure helpers become Lean
functions, the per-request mutable state (Hono context storage, the shared
materialized response) becomes explicit state passing over a small heap of
response objects, and code that can throw returns `Except`.  JS strings are
modelled by Lean `String` (all inputs of interest are ASCII, so JS UTF-16
`length`/`slice` agree with Lean's character counts), and JS `Headers`
objects by association lists with lower-cased keys and set/get semantics.
-/

/-! ## Headers model

JS `Headers`: names are case-insensitive; `set` replaces the value of an
existing name in place or appends a new entry; `get` returns the value or
`null`.  Keys are stored lower-cased. -/

abbrev HeaderMap := List (String × String)

def hKey (k : String) : String := String.mk (k.toList.map Char.toLower)

def hGet (h : HeaderMap) (k : String) : Option String :=
  (h.find? (fun p => p.1 == hKey k)).map (fun p => p.2)

def hSet (h : HeaderMap) (k v : String) : HeaderMap :=
  if h.any (fun p => p.1 == hKey k) then
    h.map (fun p => if p.1 == hKey k then (p.1, v) else p)
  else h ++ [(hKey k, v)]

/-- Building a `Headers` object from a list of entries (`new Headers(init)`
applies `set`-like normalization entry by entry). -/
def hOfEntries (entries : List (String × String)) : HeaderMap :=
  entries.foldl (fun h kv => hSet h kv.1 kv.2) []

theorem hGet_map_replace_ne (s v k' : String) (h : HeaderMap)
    (hne : hKey k' ≠ s) :
    hGet (h.map (fun p => if p.1 == s then (p.1, v) else p)) k' = hGet h k' := by
  induction h with
  | nil => rfl
  | cons a t ih =>
      by_cases has : a.1 = s
      · have h1 : (a.1 == s) = true := by simp [has]
        have h2 : (a.1 == hKey k') = false := by
          simp [has]; exact fun e => hne e.symm
        simpa [hGet, List.find?, h1, h2] using ih
      · have h1 : (a.1 == s) = false := by simp [has]
        by_cases hck : a.1 = hKey k'
        · have h2 : (a.1 == hKey k') = true := by simp [hck]
          simp [hGet, List.find?, h1, h2]
        · have h2 : (a.1 == hKey k') = false := by simp [hck]
          simpa [hGet, List.find?, h1, h2] using ih

theorem hGet_map_replace_eq (s v k' : String) (h : HeaderMap)
    (heq : hKey k' = s) (hmem : h.any (fun p => p.1 == s) = true) :
    hGet (h.map (fun p => if p.1 == s then (p.1, v) else p)) k' = some v := by
  induction h with
  | nil => simp at hmem
  | cons a t ih =>
      by_cases has : a.1 = s
      · have h1 : (a.1 == s) = true := by simp [has]
        have h2 : (a.1 == hKey k') = true := by simp [has, heq]
        simp [hGet, List.find?, h1, h2]
      · have h1 : (a.1 == s) = false := by simp [has]
        have h2 : (a.1 == hKey k') = false := by
          simp [heq]; exact has
        have hmem' : t.any (fun p => p.1 == s) = true := by
          simpa [List.any_cons, h1] using hmem
        simpa [hGet, List.find?, h1, h2] using ih hmem'

theorem hGet_hSet (h : HeaderMap) (k v k' : String) :
    hGet (hSet h k v) k' =
      if hKey k' = hKey k then some v else hGet h k' := by
  unfold hSet
  by_cases hmem : h.any (fun p => p.1 == hKey k) = true
  · simp only [hmem, if_true]
    by_cases hk' : hKey k' = hKey k
    · rw [hGet_map_replace_eq (hKey k) v k' h hk' hmem, if_pos hk']
    · rw [hGet_map_replace_ne (hKey k) v k' h hk', if_neg hk']
  · simp only [hmem, if_false]
    by_cases hk' : hKey k' = hKey k
    · have hnone : h.find? (fun p => p.1 == hKey k') = none := by
        rw [List.find?_eq_none]
        intro x hx hbeq
        rw [hk'] at hbeq
        exact hmem (List.any_eq_true.mpr ⟨x, hx, hbeq⟩)
      have hself : (hKey k == hKey k') = true := by simp [hk'.symm]
      rw [if_pos hk']
      show (List.find? (fun p => p.1 == hKey k') (h ++ [(hKey k, v)])).map
            (fun p => p.2) = some v
      rw [List.find?_append, hnone, Option.none_or]
      simp [List.find?, hself]
    · have hne : (hKey k == hKey k') = false := by
        simp; exact fun e => hk' e.symm
      rw [if_neg hk']
      show (List.find? (fun p => p.1 == hKey k') (h ++ [(hKey k, v)])).map
            (fun p => p.2) = hGet h k'
      have hsing : List.find? (fun p => p.1 == hKey k')
          ([(hKey k, v)] : HeaderMap) = none := by
        simp [List.find?, hne]
      rw [List.find?_append, hsing, Option.or_none]
      rfl


/-! ## Character-level string utilities

JS string methods are mirrored on character lists, which evaluate inside
the kernel; the inputs of interest are ASCII, where `toLowerCase`, `trim`
and `split` agree with these. -/

/-- `String.prototype.split(sep)` on characters (keeps empty groups,
`"".split` is `[""]`). -/
def charSplit (sep : Char) : List Char → List (List Char)
  | [] => [[]]
  | c :: cs =>
      if c = sep then [] :: charSplit sep cs
      else
        match charSplit sep cs with
        | [] => [[c]]
        | g :: gs => (c :: g) :: gs

def strToLower (s : String) : String := String.mk (s.toList.map Char.toLower)

def isJSSpace (c : Char) : Bool :=
  c = ' ' || c = '\t' || c = '\n' || c = '\r' || c = '\x0b' || c = '\x0c'

/-- `String.prototype.trim` (whitespace on both ends). -/
def strTrim (s : String) : String :=
  String.mk (((s.toList.dropWhile isJSSpace).reverse.dropWhile isJSSpace).reverse)

/-! ## `ensureVaryOrigin` (src lines 53-64)

The JS function reads the current `Vary` header and writes through
`c.header`; both sides are modelled on one header map.  Note the JS
emptiness test `!prev` is true both when the header is absent (`null`)
and when its value is the empty string. -/

def hasOriginToken (p : String) : Bool :=
  ((charSplit ',' p.toList).map
      (fun cs => strToLower (strTrim (String.mk cs)))).contains "origin"

def ensureVaryOrigin (h : HeaderMap) : HeaderMap :=
  match hGet h "Vary" with
  | none => hSet h "Vary" "Origin"
  | some p =>
      if p = "" then hSet h "Vary" "Origin"
      else if hasOriginToken p then h
      else hSet h "Vary" (p ++ ", Origin")

/-! ## Response values and `cloneWithExtraHeaders` (src lines 65-75) -/

structure Resp where
  status : Nat
  statusText : String
  headers : HeaderMap
  body : Option String
deriving DecidableEq, Repr

def cloneWithExtraHeaders (res : Resp) (extra : List (String × String)) : Resp :=
  let headers := extra.foldl (fun h kv => hSet h kv.1 kv.2) res.headers
  { status := res.status
    statusText := res.statusText
    headers := headers
    body := res.body }

/-! ## Path compiler: `filepathToRoutes` (src lines 78-151)

JS strings are processed here as character lists so that every step is
structurally recursive and evaluates inside the kernel.  `String.length`
and `slice` agree with character counts on the ASCII inputs the loader
receives. -/

def strStartsWith (s pre : String) : Bool := pre.toList.isPrefixOf s.toList

def strEndsWith (s suf : String) : Bool :=
  suf.toList.reverse.isPrefixOf s.toList.reverse

def strDrop (s : String) (n : Nat) : String := String.mk (s.toList.drop n)

def strDropRight (s : String) (n : Nat) : String :=
  String.mk ((s.toList.reverse.drop n).reverse)

/-- `String.prototype.replace(/\\/g, "/")`. -/
def toPosix (s : String) : String :=
  String.mk (s.toList.map (fun c => if c = '\\' then '/' else c))

/-- `String.prototype.replace(/\/+$/, "")`. -/
def dropTrailingSlashes (s : String) : String :=
  String.mk ((s.toList.reverse.dropWhile (fun c => c = '/')).reverse)

/-- `String.prototype.replace(/^\/+/, "")`. -/
def dropLeadingSlashes (s : String) : String :=
  String.mk (s.toList.dropWhile (fun c => c = '/'))

def splitSlash (s : String) : List String :=
  (charSplit '/' s.toList).map String.mk

/-- The character class `[A-Za-z0-9_]` of the route regexes. -/
def isWordChar (c : Char) : Bool := c.isAlphanum || c = '_'

/-- Segment expansion (src lines 93-111): each file-path segment becomes a
set of choices, each choice a list of emitted pattern segments. -/
def expandSeg (seg : String) : List (List String) :=
  if strStartsWith seg "[[..." && strEndsWith seg "]]" then
    let n := strDropRight (strDrop seg 5) 2
    [[], [":" ++ n ++ "\x7b.+\x7d"]]
  else if strStartsWith seg "[[" && strEndsWith seg "]]" then
    let n := strDropRight (strDrop seg 2) 2
    [[], [":" ++ n]]
  else if strStartsWith seg "[..." && strEndsWith seg "]" then
    let n := strDropRight (strDrop seg 4) 1
    [[":" ++ n ++ "\x7b.+\x7d"]]
  else if strStartsWith seg "[" && strEndsWith seg "]" then
    let n := strDropRight (strDrop seg 1) 1
    [[":" ++ n]]
  else [[seg]]

/-- `new Set(...)` insertion order: first occurrences, in order. -/
def dedupFirstAux (seen : List String) : List String → List String
  | [] => []
  | x :: xs =>
      if seen.contains x then dedupFirstAux seen xs
      else x :: dedupFirstAux (seen ++ [x]) xs

def dedupFirst (l : List String) : List String := dedupFirstAux [] l

/-- Test for the regex `/\/:([A-Za-z0-9_]+)$/` (src line 133): the pattern
ends in `/:name` with `name` a nonempty word-character run. -/
def endsWithParam (r : String) : Bool :=
  let rcs := r.toList.reverse
  let name := rcs.takeWhile isWordChar
  !name.isEmpty &&
    (match rcs.drop name.length with
     | ':' :: '/' :: _ => true
     | _ => false)

/-- All matches of `/:([A-Za-z0-9_]+)\{\.\+\}/g` (src line 141), scanning
left to right.  A successful match `:name{.+}` contains no further `:`
after its first character, so advancing one character at a time (instead
of past the match, as the regex engine does) finds the same matches. -/
def restParamsAux : List Char → List String
  | [] => []
  | ':' :: rest =>
      (match rest.takeWhile isWordChar,
             rest.drop (rest.takeWhile isWordChar).length with
       | _ :: _, '\x7b' :: '.' :: '+' :: '\x7d' :: _ =>
           [String.mk (rest.takeWhile isWordChar)]
       | _, _ => []) ++ restParamsAux rest
  | _ :: rest => restParamsAux rest

/-- Test for the regex `/^\[\[([A-Za-z0-9_]+)\]\]$/` (src line 136). -/
def optTailOf (lastRaw : String) : Option String :=
  match lastRaw.toList with
  | '[' :: '[' :: rest =>
      let name := rest.takeWhile isWordChar
      if !name.isEmpty && rest.drop name.length = [']', ']'] then
        some (String.mk name)
      else none
  | _ => none

structure RoutePattern where
  path : String
  arrayParams : List String
deriving DecidableEq, Repr

structure FileRoutes where
  routes : List RoutePattern
  isMiddleware : Bool
deriving DecidableEq, Repr

def filepathToRoutes (filepath : String) (baseDir : String := "../functions") :
    FileRoutes :=
  let posixPath := toPosix filepath
  let posixBase := dropTrailingSlashes (toPosix baseDir)
  let p :=
    if strStartsWith posixPath (posixBase ++ "/") then
      strDrop posixPath (posixBase.length + 1)
    else posixPath
  let p :=
    if strEndsWith p ".js" || strEndsWith p ".ts" then strDropRight p 3 else p
  let rawSegs := (splitSlash p).filter (fun s => s ≠ "")
  let popped : List String × Bool :=
    match rawSegs.getLast? with
    | none => (rawSegs, false)
    | some last =>
        let front := rawSegs.dropLast
        if last = "_middleware" then (front, true)
        else if last = "index" then (front, false)
        else (front ++ [last], false)
  let rawSegs := popped.1
  let isMiddleware := popped.2
  let parts := rawSegs.map expandSeg
  let routesParts :=
    parts.foldl
      (fun acc choices =>
        acc.flatMap (fun pref => choices.map (fun choice => pref ++ choice)))
      [[]]
  let baseRoutes :=
    dedupFirst (routesParts.map (fun pp =>
      "/" ++ dropLeadingSlashes
              (String.intercalate "/" (pp.filter (fun s => s ≠ "")))))
  let baseRoutes := if baseRoutes.isEmpty then ["/"] else baseRoutes
  let augmented :=
    dedupFirst
      (baseRoutes ++
        (baseRoutes.filter endsWithParam).map (fun r => r ++ "\x7b.+\x7d"))
  let lastRaw := (rawSegs.getLast?).getD ""
  let optTail := optTailOf lastRaw
  let routes := augmented.map (fun pathStr =>
    let fromRest := restParamsAux pathStr.toList
    let fromOpt :=
      match optTail with
      | some t =>
          if strEndsWith pathStr ("/:" ++ t) ||
             strEndsWith pathStr ("/:" ++ t ++ "\x7b.+\x7d") then [t]
          else []
      | none => []
    { path := pathStr, arrayParams := dedupFirst (fromRest ++ fromOpt) })
  { routes := routes, isMiddleware := isMiddleware }

/-! ## Chain composer: `composeCFChain` (src lines 286-338)

A handler's visible behaviour is a finite interaction tree `HStep`: it
either finishes with a JS return value (`none` models `undefined`) or
invokes its continuation `stepNext` — optionally passing a replacement
request — and continues as a function of the continuation's resolved
value.  The handler-arity dispatch on src line 317 only selects how the
same `stepNext` is handed to the handler and has no behavioural content
here.

The executor state carries the `idx` guard variable (src line 291), the
pending `__cf_override_request__` store entry, and an event log recording
which handlers were entered and whether `finalNext` was invoked. -/

inductive Event where
  | enter (i : Nat)
  | finalNext
deriving DecidableEq, Repr

structure ChainSt (R : Type) where
  idx : Int
  log : List Event
  ov : Option R

inductive ChainErr where
  | nextCalledMultipleTimes
deriving DecidableEq, Repr

inductive HStep (V R : Type) where
  | done (out : Option V)
  | callNext (ro : Option R) (k : Option V → HStep V R)

/-- Effect of `stepNext`'s override handling (src lines 304-310):
`if (reqOverride && reqOverride !== ctx.request)` store a defensive copy
(value semantics make the copy the value itself). -/
def applyOverride {R : Type} [DecidableEq R] (req : R)
    (ov ro : Option R) : Option R :=
  match ro with
  | some r => if r ≠ req then some r else ov
  | none => ov

/-- Runs one handler tree.  `nextFn` is the `runAt (i+1)` continuation;
the returned `Bool` is the frame's `called` flag (src line 301). -/
def interpH {V R : Type} [DecidableEq R]
    (nextFn : ChainSt R → Except ChainErr (Option V) × ChainSt R)
    (req : R) :
    HStep V R → ChainSt R →
      Except ChainErr (Option V) × Bool × ChainSt R
  | .done out, st => (.ok out, false, st)
  | .callNext ro k, st =>
      let st1 : ChainSt R := { st with ov := applyOverride req st.ov ro }
      match nextFn st1 with
      | (.error e, st2) => (.error e, true, st2)
      | (.ok r, st2) =>
          match interpH nextFn req (k r) st2 with
          | (res, _, st3) => (res, true, st3)

/-- `runAt i` (src lines 292-335), with the not-yet-run chain suffix as the
recursion argument (`suffix = chain.drop i`, so `i ≥ chain.length` is
`suffix = []`).  `fN` is the final continuation: `some r` models a
supplied `finalNext` resolving to `r`, `none` models an absent one
(src line 297). -/
def runAt {V R : Type} [DecidableEq R] (fN : Option (Option V)) (req : R) :
    List (HStep V R) → Nat → ChainSt R →
      Except ChainErr (Option V) × ChainSt R
  | suffix, i, st =>
      if (i : Int) ≤ st.idx then (.error .nextCalledMultipleTimes, st)
      else
        let st : ChainSt R := { st with idx := (i : Int) }
        match suffix with
        | [] =>
            match fN with
            | some r => (.ok r, { st with log := st.log ++ [Event.finalNext] })
            | none => (.ok none, st)
        | h :: rest =>
            let stE : ChainSt R := { st with log := st.log ++ [Event.enter i] }
            match interpH (fun s => runAt fN req rest (i + 1) s) req h stE with
            | (.error e, _, st2) => (.error e, st2)
            | (.ok out, called, st2) =>
                match out with
                | some v => (.ok (some v), st2)
                | none =>
                    if called then (.ok none, st2)
                    else runAt fN req rest (i + 1) st2

/-- A module's exported handler entry: a callable (with behaviour `h`) or
any non-function value. -/
inductive CFExportItem (V R : Type) where
  | callable (h : HStep V R)
  | notCallable

def CFExportItem.isCallable {V R : Type} : CFExportItem V R → Bool
  | .callable _ => true
  | .notCallable => false

/-- `exported` as received by `composeCFChain`: a single value or an array. -/
inductive CFExported (V R : Type) where
  | single (f : CFExportItem V R)
  | arr (fs : List (CFExportItem V R))

def callableFn {V R : Type} : CFExportItem V R → Option (HStep V R)
  | .callable h => some h
  | .notCallable => none

/-- Src lines 287-288: wrap a lone export in an array, then keep only the
entries that are functions. -/
def composeCFChain {V R : Type} : CFExported V R → List (HStep V R)
  | .single f => [f].filterMap callableFn
  | .arr fs => fs.filterMap callableFn

/-- The composed `run(rootCtx, finalNext)` (src lines 289-337): start at
position `0` with `idx = -1` and no pending override. -/
def chainRun {V R : Type} [DecidableEq R] (e : CFExported V R)
    (fN : Option (Option V)) (req : R) :
    Except ChainErr (Option V) × ChainSt R :=
  runAt fN req (composeCFChain e) 0 { idx := -1, log := [], ov := none }

/-- Result of `finalNext ? await finalNext() : undefined` (src line 297). -/
def fNres {V : Type} (fN : Option (Option V)) : Option V :=
  match fN with
  | some r => r
  | none => none

/-- Log entry produced when the chain end is reached: `finalNext` runs
only when supplied. -/
def finalEv {V : Type} (fN : Option (Option V)) : List Event :=
  match fN with
  | some _ => [Event.finalNext]
  | none => []

/-! ## Response normalization: `toMutableResponse` (src lines 199-242)

JS values reaching the normalizer are either `Response` instances,
`undefined`/`null`, other objects, or primitives.  For plain objects the
source tries, when the object is response-shaped, `new Response(...)`
(which throws on an invalid status, on a body combined with a null-body
status, or on an invalid headers init) and otherwise, as well as in the
`catch`, `Response.json(res)` — which itself throws when
`JSON.stringify` fails on the object (cyclic references, `BigInt`
fields, a throwing `toJSON`); that possibility is carried by the
`serializable` flag, and `jsonText` is the encoding when it exists.
A symbol primitive (`typeof` is `"symbol"`, not `"object"`) reaches the
final branch `new Response(res)`, whose body conversion applies
`ToString` to the symbol and therefore throws a `TypeError`; distinct
symbols are told apart by an id.  An uncaught JS exception is modelled
as `Except.error`. -/

structure HeaderInit where
  entries : List (String × String)
  valid : Bool
deriving DecidableEq, Repr

structure JSObj where
  status : Option Nat
  headersField : Option HeaderInit
  hasBodyKey : Bool
  hasBodyUsedKey : Bool
  body : Option String
  serializable : Bool
  jsonText : String
deriving DecidableEq, Repr

inductive JSPlain where
  | undef
  | nullv
  | obj (o : JSObj)
  | str (s : String)
  | num (n : Int)
  | boolv (b : Bool)
  | sym (id : Nat)
deriving DecidableEq, Repr

inductive JSVal where
  | resp (r : Resp)
  | plain (p : JSPlain)
deriving DecidableEq, Repr

/-- Truthiness of `res?.status` (a number: truthy iff nonzero) and of
`res?.headers` (an object reference: truthy iff present). -/
def respLike (o : JSObj) : Bool :=
  (match o.status with | some s => s ≠ 0 | none => false) &&
    o.headersField.isSome && (o.hasBodyKey || o.hasBodyUsedKey)

/-- `new Response(res.body ?? null, { status: res.status, headers: new
Headers(res.headers) })` for a response-shaped plain object. -/
def mkResponseFromObj (o : JSObj) : Except Unit Resp :=
  match o.status, o.headersField with
  | some s, some hi =>
      if hi.valid && (200 ≤ s && s ≤ 599) &&
         !(o.body.isSome && (s = 204 || s = 205 || s = 304)) then
        .ok { status := s, statusText := ""
              headers := hOfEntries hi.entries, body := o.body }
      else .error ()
  | _, _ => .error ()

/-- `Response.json(res)`. -/
def responseJson (o : JSObj) : Except Unit Resp :=
  if o.serializable then
    .ok { status := 200, statusText := ""
          headers := [("content-type", "application/json")]
          body := some o.jsonText }
  else .error ()

def toMutableResponse : JSVal → Except Unit Resp
  | .plain .undef =>
      .ok { status := 204, statusText := "", headers := [], body := none }
  | .plain .nullv =>
      .ok { status := 204, statusText := "", headers := [], body := none }
  | .resp r =>
      .ok { status := r.status, statusText := r.statusText
            headers := r.headers, body := r.body }
  | .plain (.obj o) =>
      match (if respLike o then mkResponseFromObj o else responseJson o) with
      | .ok out => .ok out
      | .error _ => responseJson o
  | .plain (.str s) =>
      .ok { status := 200, statusText := ""
            headers := [("content-type", "text/plain;charset=UTF-8")]
            body := some s }
  | .plain (.num n) =>
      .ok { status := 200, statusText := ""
            headers := [("content-type", "text/plain;charset=UTF-8")]
            body := some (toString n) }
  | .plain (.boolv b) =>
      .ok { status := 200, statusText := ""
            headers := [("content-type", "text/plain;charset=UTF-8")]
            body := some (toString b) }
  | .plain (.sym _) => .error ()

/-! ## Shared mutable response & global wrapper (src lines 244-284, 472-516)

Response instances live on a per-request heap; a JS reference is an index
into it, so identity ("the same object") is index equality and header
mutation through one reference is visible through every alias.  The
request-scoped store (`c.get`/`c.set`) holds the trace id and the
materialized-response reference; `c.res` is the host's in-progress
response (a reference, when present); `nextIdVal` is the string
`randId()` returns if it gets called during this request. -/

structure ReqState where
  heap : List Resp
  sharedRef : Option Nat
  traceId : Option String
  cres : Option Nat
  nextIdVal : String
deriving DecidableEq, Repr

/-- The value `await next()` resolves to, as inspected by the
`instanceof Response` tests: a `Response` reference or any other value. -/
inductive DV where
  | respRef (n : Nat)
  | plain (p : JSPlain)
deriving DecidableEq, Repr

def heapAt (st : ReqState) (n : Nat) : Resp :=
  st.heap.getD n { status := 200, statusText := "", headers := [], body := none }

def alloc (st : ReqState) (r : Resp) : Nat × ReqState :=
  (st.heap.length, { st with heap := st.heap ++ [r] })

/-- Normalize a downstream value, dereferencing a `Response` reference. -/
def toMutableResponseDV (st : ReqState) : DV → Except Unit Resp
  | .respRef n => toMutableResponse (.resp (heapAt st n))
  | .plain p => toMutableResponse (.plain p)

/-- `getSharedMutableResponse` (src lines 244-284), returning a reference
to the materialized response. -/
def getSharedMutableResponse (st : ReqState)
    (next : ReqState → DV × ReqState) : Except Unit (Nat × ReqState) :=
  match st.sharedRef with
  | some r => .ok (r, st)
  | none =>
      let dres := next st
      let downstream := dres.1
      let st1 := dres.2
      let downstreamResponse : DV :=
        match downstream with
        | .respRef n => .respRef n
        | .plain p =>
            match st1.cres with
            | some n => .respRef n
            | none => .plain p
      match toMutableResponseDV st1 downstreamResponse with
      | .error e => .error e
      | .ok sharedVal =>
          let ar := alloc st1 sharedVal
          .ok (ar.1, { ar.2 with sharedRef := some ar.1 })

/-- Header mutation through a shared reference
(`shared.headers.set(k, v)`). -/
def mutateHeader (st : ReqState) (n : Nat) (k v : String) : ReqState :=
  let r := heapAt st n
  let r2 := { r with headers := hSet r.headers k v }
  { st with heap := st.heap.set n r2 }

/-- `const trace = c.get("__trace_id__") || randId()` (src line 473; the
empty string is falsy). -/
def wrapperTrace (st0 : ReqState) : String :=
  match st0.traceId with
  | some t => if t = "" then st0.nextIdVal else t
  | none => st0.nextIdVal

/-- `let shared = c.get("__cf_mutable_response__"); shared = shared ?
shared : toMutableResponse(res, trace)` (src lines 490-494): the
materialized response the wrapper clones, after running the downstream
pipeline. -/
def wrapperSharedE (st0 : ReqState) (next : ReqState → DV × ReqState) :
    Except Unit Resp :=
  let st := { st0 with traceId := some (wrapperTrace st0) }
  let dres := next st
  match dres.2.sharedRef with
  | some r => .ok (heapAt dres.2 r)
  | none => toMutableResponseDV dres.2 dres.1

/-- The global wrapper registered first (src lines 472-516), split so that
the materialized response chosen at clone time is the first component of
the result; `globalWrapper` below projects the pair the wrapper actually
returns. -/
def globalWrapperParts (st0 : ReqState)
    (next : ReqState → DV × ReqState) : Except Unit (Resp × Resp × ReqState) :=
  match wrapperSharedE st0 next with
  | .error e => .error e
  | .ok shared =>
      .ok (shared,
           cloneWithExtraHeaders shared [("X-Trace-Id", wrapperTrace st0)],
           (next { st0 with traceId := some (wrapperTrace st0) }).2)

def globalWrapper (st0 : ReqState) (next : ReqState → DV × ReqState) :
    Except Unit (Resp × ReqState) :=
  (globalWrapperParts st0 next).map (fun x => (x.2.1, x.2.2))

/-! ## Registration orchestrator, PASS 1 (src lines 543-567)

Only the data that determines registration order is modelled: per module,
its compiled routes, the middleware flag and the method names of its
recognized handlers (the handler closures themselves do not influence
order).  `Array.prototype.sort` is stable and is modelled by
`List.mergeSort`. -/

structure ModEntry where
  filepath : String
  routes : List RoutePattern
  isMiddleware : Bool
  handlerMethods : List String

def mwRouteOf (path : String) : String :=
  if path = "/" then "/*" else path ++ "/*"

structure MwReg where
  mwRoute : String
  depth : Nat
  file : String
deriving DecidableEq, Repr

/-- PASS 1 collection loop (src lines 544-558): every ALL-method middleware
registration, with `depth` equal to `mwRoute.split("/").length`. -/
def collectMwAll (all : List ModEntry) : List MwReg :=
  all.flatMap (fun e =>
    if e.isMiddleware then
      e.routes.flatMap (fun r =>
        let mr := mwRouteOf r.path
        if e.handlerMethods.contains "ALL" then
          [{ mwRoute := mr, depth := (splitSlash mr).length
             file := e.filepath : MwReg }]
        else [])
    else [])

/-- PASS 1 (src lines 543-567): sort ascending by depth
(`mwAll.sort((a, b) => a.depth - b.depth)`, a stable sort) before
insertion into the host router; the returned list order is the `app.use`
registration order. -/
def pass1 (all : List ModEntry) : List MwReg :=
  (collectMwAll all).mergeSort (fun a b => a.depth ≤ b.depth)

/-! ## Claim theorems -/

/-- Claim C2 (counterexample): compiling `"docs/[[section]]"` puts the
parameter name `"section"` into `arrayParams` of the PLAIN
`"/docs/:section"` member as well (src lines 143-147 match the
`/:section` ending of the plain member too), contradicting the claim
that it appears only on the augmented member. -/
theorem filepathToRoutes_docs_plain_member_cex :
    (filepathToRoutes "docs/[[section]]" "../functions").routes.filter
        (fun r => r.path = "/docs/:section") =
      [{ path := "/docs/:section", arrayParams := ["section"] }] := by decide

/-- Claim C2 (amended): compiling `"docs/[[section]]"` yields exactly the
patterns `"/docs"`, `"/docs/:section"` and the augmented
`"/docs/:section"` with a rest-capture suffix; `"section"` appears in
`arrayParams` on BOTH the plain `"/docs/:section"` member and the
augmented member (and not on `"/docs"`). -/
theorem filepathToRoutes_docs_optional :
    filepathToRoutes "docs/[[section]]" "../functions" =
      { routes :=
          [ { path := "/docs", arrayParams := [] },
            { path := "/docs/:section", arrayParams := ["section"] },
            { path := "/docs/:section\x7b.+\x7d", arrayParams := ["section"] } ],
        isMiddleware := false } := by decide

/-- Claim C8 (counterexample): on a header map whose `Vary` header exists
with the empty-string value, `ensureVaryOrigin` sets `Vary` to
`"Origin"` (the JS `!prev` test treats `""` as absent) instead of
appending `", Origin"` to the existing value as the claim requires for
an existing header without an `origin` token. -/
theorem ensureVaryOrigin_empty_vary_cex :
    hGet [("vary", "")] "Vary" = some "" ∧
      hasOriginToken "" = false ∧
      ensureVaryOrigin [("vary", "")] = [("vary", "Origin")] ∧
      ensureVaryOrigin [("vary", "")] ≠ hSet [("vary", "")] "Vary" ", Origin" := by
  decide

/-- Claim C8 (amended): `ensureVaryOrigin` is additive.  If no `Vary`
header exists — or it exists with the empty-string value, which the code
treats as absent — it sets `Vary` to `"Origin"`; if a nonempty `Vary`
value lacks a case-insensitive `origin` token it appends `", Origin"` to
that value (never dropping existing tokens); if the token is present it
changes nothing. -/
theorem ensureVaryOrigin_cases (h : HeaderMap) :
    (hGet h "Vary" = none → ensureVaryOrigin h = hSet h "Vary" "Origin") ∧
    (hGet h "Vary" = some "" → ensureVaryOrigin h = hSet h "Vary" "Origin") ∧
    (∀ p, hGet h "Vary" = some p → p ≠ "" → hasOriginToken p = false →
        ensureVaryOrigin h = hSet h "Vary" (p ++ ", Origin")) ∧
    (∀ p, hGet h "Vary" = some p → hasOriginToken p = true →
        ensureVaryOrigin h = h) := by
  refine ⟨?_, ?_, ?_, ?_⟩
  · intro hn; simp [ensureVaryOrigin, hn]
  · intro hs; simp [ensureVaryOrigin, hs]
  · intro p hp hne hto; simp [ensureVaryOrigin, hp, hne, hto]
  · intro p hp hto
    have hne : p ≠ "" := by
      intro e
      rw [e] at hto
      exact absurd hto (by decide)
    simp [ensureVaryOrigin, hp, hne, hto]

/-- Claim C8 witness: the amended theorem applied to a concrete map with
`Vary: Accept`. -/
theorem ensureVaryOrigin_cases_witness :
    ensureVaryOrigin [("vary", "Accept")] =
      hSet [("vary", "Accept")] "Vary" "Accept, Origin" :=
  (ensureVaryOrigin_cases [("vary", "Accept")]).2.2.1 "Accept" (by decide)
    (by decide) (by decide)

/-- Claim C9 (confirmed): the PASS 1 registration order of ALL-method
middleware is monotone in pattern segment depth — for every pair in the
registration sequence, the earlier entry's depth is at most the later
entry's, so shallow (ancestor-directory) middleware is registered with
the host router before deep (descendant-directory) middleware. -/
theorem pass1_sorted_by_depth (all : List ModEntry) :
    (pass1 all).Pairwise (fun a b => a.depth ≤ b.depth) := by
  refine List.Pairwise.imp ?_
    (List.sorted_mergeSort ?_ ?_ (collectMwAll all))
  · exact fun h => by simpa using h
  · intro a b c hab hbc
    simp only [decide_eq_true_eq] at hab hbc ⊢
    omega
  · intro a b
    simpa using Nat.le_total a.depth b.depth

/-- Claim C6 (confirmed): once a materialized response is stored in the
shared store, a retrieval through `getSharedMutableResponse` returns the
identical instance — the same heap reference, with the state (heap
included) unchanged, so nothing is copied or allocated — and after any
link mutates a header through that reference, a further retrieval still
returns the same reference and reading the mutated response shows the
new header value. -/
theorem getSharedMutableResponse_identity (st : ReqState)
    (next next2 : ReqState → DV × ReqState) (r : Nat) (k v : String)
    (hr : st.sharedRef = some r) (hlen : r < st.heap.length) :
    getSharedMutableResponse st next = .ok (r, st) ∧
    getSharedMutableResponse (mutateHeader st r k v) next2 =
      .ok (r, mutateHeader st r k v) ∧
    hGet (heapAt (mutateHeader st r k v) r).headers k = some v := by
  refine ⟨?_, ?_, ?_⟩
  · unfold getSharedMutableResponse
    rw [hr]
  · unfold getSharedMutableResponse
    have hr2 : (mutateHeader st r k v).sharedRef = some r := by
      simp [mutateHeader, hr]
    rw [hr2]
  · have hat : (heapAt (mutateHeader st r k v) r).headers =
        hSet (heapAt st r).headers k v := by
      simp only [mutateHeader, heapAt, List.getD]
      rw [List.get?_eq_getElem?, List.getElem?_set_self hlen]
      rfl
    rw [hat, hGet_hSet]
    simp

/-- Claim C6 witness: the identity theorem applied to a concrete request
state holding one materialized response. -/
theorem getSharedMutableResponse_identity_witness :
    getSharedMutableResponse
        { heap := [{ status := 200, statusText := "", headers := []
                     body := none }]
          sharedRef := some 0, traceId := none, cres := none
          nextIdVal := "t1" }
        (fun s => (DV.plain .undef, s)) =
      .ok (0,
        { heap := [{ status := 200, statusText := "", headers := []
                     body := none }]
          sharedRef := some 0, traceId := none, cres := none
          nextIdVal := "t1" }) ∧
    hGet (heapAt (mutateHeader
        { heap := [{ status := 200, statusText := "", headers := []
                     body := none }]
          sharedRef := some 0, traceId := none, cres := none
          nextIdVal := "t1" } 0 "X-Custom" "1") 0).headers "X-Custom" =
      some "1" :=
  let st : ReqState :=
    { heap := [{ status := 200, statusText := "", headers := [], body := none }]
      sharedRef := some 0, traceId := none, cres := none, nextIdVal := "t1" }
  let h := getSharedMutableResponse_identity st (fun s => (DV.plain .undef, s))
    (fun s => (DV.plain .undef, s)) 0 "X-Custom" "1" rfl (by decide)
  ⟨h.1, h.2.2⟩

/-- Claim C1 (counterexample): when the materialized response already
carries an `X-Trace-Id` header (any chain link may set one), the final
clone does NOT contain that header of the materialized response — the
extra-header overlay in `cloneWithExtraHeaders` overwrites it with the
request's trace id — so the final response does not contain every header
present on the materialized response at clone time. -/
theorem globalWrapper_xtrace_overwrite_cex :
    globalWrapperParts
        { heap := [{ status := 200, statusText := ""
                     headers := [("x-trace-id", "old"), ("x-powered-by", "hono")]
                     body := none }]
          sharedRef := some 0, traceId := none, cres := none
          nextIdVal := "t123" }
        (fun s => (DV.plain .undef, s)) =
      .ok ({ status := 200, statusText := ""
             headers := [("x-trace-id", "old"), ("x-powered-by", "hono")]
             body := none },
           { status := 200, statusText := ""
             headers := [("x-trace-id", "t123"), ("x-powered-by", "hono")]
             body := none },
           { heap := [{ status := 200, statusText := ""
                        headers := [("x-trace-id", "old"), ("x-powered-by", "hono")]
                        body := none }]
             sharedRef := some 0, traceId := some "t123", cres := none
             nextIdVal := "t123" }) ∧
    ("old" : String) ≠ "t123" := by
  exact ⟨rfl, by decide⟩

/-- Claim C1 (amended): for a request whose trace id is generated at first
access in the wrapper (`traceId` initially unset), the response the
global wrapper returns equals `cloneWithExtraHeaders` of the
materialized response with the trace header overlaid; it carries
`X-Trace-Id` equal to that generated trace id, and it contains every
header the materialized response held at clone time EXCEPT an existing
`X-Trace-Id` header, which is overwritten by the trace id. -/
theorem globalWrapper_trace_and_headers (st0 : ReqState)
    (next : ReqState → DV × ReqState) (shared finalRes : Resp)
    (st1 : ReqState)
    (h0 : st0.traceId = none)
    (hw : globalWrapperParts st0 next = .ok (shared, finalRes, st1)) :
    finalRes = cloneWithExtraHeaders shared [("X-Trace-Id", st0.nextIdVal)] ∧
    hGet finalRes.headers "X-Trace-Id" = some st0.nextIdVal ∧
    (∀ k v, hKey k ≠ hKey "X-Trace-Id" → hGet shared.headers k = some v →
        hGet finalRes.headers k = some v) := by
  have htr : wrapperTrace st0 = st0.nextIdVal := by
    simp [wrapperTrace, h0]
  unfold globalWrapperParts at hw
  cases he : wrapperSharedE st0 next with
  | error e => rw [he] at hw; exact absurd hw (by simp)
  | ok s =>
      rw [he] at hw
      have hs : s = shared := congrArg (fun x => x.1) (Except.ok.inj hw)
      have hf : finalRes =
          cloneWithExtraHeaders s [("X-Trace-Id", wrapperTrace st0)] :=
        (congrArg (fun x => x.2.1) (Except.ok.inj hw)).symm
      rw [hs, htr] at hf
      refine ⟨hf, ?_, ?_⟩
      · rw [hf]
        show hGet (hSet shared.headers "X-Trace-Id" st0.nextIdVal)
          "X-Trace-Id" = some st0.nextIdVal
        rw [hGet_hSet]
        simp
      · intro k v hk hv
        rw [hf]
        show hGet (hSet shared.headers "X-Trace-Id" st0.nextIdVal) k = some v
        rw [hGet_hSet, if_neg hk]
        exact hv

/-- Claim C1 witness: the amended theorem applied to a concrete request
whose materialized response carries one ordinary header. -/
theorem globalWrapper_trace_and_headers_witness :
    hGet (cloneWithExtraHeaders
        { status := 200, statusText := ""
          headers := [("x-powered-by", "hono")], body := none }
        [("X-Trace-Id", "t9")]).headers "X-Trace-Id" = some "t9" ∧
    hGet (cloneWithExtraHeaders
        { status := 200, statusText := ""
          headers := [("x-powered-by", "hono")], body := none }
        [("X-Trace-Id", "t9")]).headers "X-Powered-By" = some "hono" :=
  let st0 : ReqState :=
    { heap := [{ status := 200, statusText := ""
                 headers := [("x-powered-by", "hono")], body := none }]
      sharedRef := some 0, traceId := none, cres := none, nextIdVal := "t9" }
  let h := globalWrapper_trace_and_headers st0 (fun s => (DV.plain .undef, s))
    { status := 200, statusText := ""
      headers := [("x-powered-by", "hono")], body := none }
    (cloneWithExtraHeaders
      { status := 200, statusText := ""
        headers := [("x-powered-by", "hono")], body := none }
      [("X-Trace-Id", "t9")])
    { st0 with traceId := some "t9" } rfl rfl
  ⟨h.2.1, h.2.2 "X-Powered-By" "hono" (by decide) (by decide)⟩

theorem filterMap_callableFn_replicate {V R : Type} (n : Nat) (h : HStep V R) :
    List.filterMap callableFn (List.replicate n (.callable h)) =
      List.replicate n h := by
  induction n with
  | zero => rfl
  | succ m ih =>
      simp [List.replicate_succ, List.filterMap_cons, callableFn, ih]

theorem filterMap_callableFn_nil {V R : Type} (fs : List (CFExportItem V R))
    (h : ∀ f ∈ fs, f = CFExportItem.notCallable) :
    List.filterMap callableFn fs = [] := by
  induction fs with
  | nil => rfl
  | cons f t ih =>
      have hf : f = CFExportItem.notCallable := h f (List.mem_cons_self f t)
      rw [hf]
      simpa [List.filterMap_cons, callableFn] using
        ih (fun g hg => h g (List.mem_cons_of_mem f hg))

/-- Auto-advance run of a chain of `n` handlers that neither return a
value nor call their continuation, starting at position `i`. -/
theorem runAt_idle {V R : Type} [DecidableEq R] (fN : Option (Option V))
    (req : R) :
    ∀ (n i : Nat) (st : ChainSt R), st.idx < (i : Int) →
      runAt fN req (List.replicate n (HStep.done none)) i st =
        (.ok (fNres fN),
          { idx := ((i + n : Nat) : Int)
            log := st.log ++ ((List.range' i n).map Event.enter ++ finalEv fN)
            ov := st.ov }) := by
  intro n
  induction n with
  | zero =>
      intro i st h
      unfold runAt
      rw [if_neg (not_le.mpr h)]
      cases fN with
      | some r => rfl
      | none => simp [fNres, finalEv]
  | succ m ih =>
      intro i st h
      unfold runAt
      rw [if_neg (not_le.mpr h)]
      show runAt fN req (List.replicate m (HStep.done none)) (i + 1)
          { idx := (i : Int), log := st.log ++ [Event.enter i], ov := st.ov } = _
      rw [ih (i + 1) _ (by show (i : Int) < ((i + 1 : Nat) : Int); push_cast; omega)]
      congr 1
      show ChainSt.mk _ _ _ = ChainSt.mk _ _ _
      congr 1
      · push_cast
        omega
      · rw [show List.range' i (m + 1) = i :: List.range' (i + 1) m from rfl]
        simp [List.append_assoc]

/-- Claim C7 (confirmed): for every chain of `n` handlers in which no
handler returns a value and no handler calls its continuation, running
the chain auto-advances through all `n` handlers in order (the log's
enter events are exactly positions `0, …, n-1`) and invokes the final
continuation exactly once. -/
theorem chain_auto_advance {V R : Type} [DecidableEq R] (n : Nat)
    (fNr : Option V) (req : R) :
    chainRun (.arr (List.replicate n (.callable (.done none)))) (some fNr)
        req =
      (.ok fNr,
        { idx := (n : Int)
          log := (List.range n).map Event.enter ++ [Event.finalNext]
          ov := none }) ∧
    ((List.range n).map Event.enter ++ [Event.finalNext]).count
        Event.finalNext = 1 := by
  constructor
  · show runAt (some fNr) req
        (List.filterMap callableFn
          (List.replicate n (CFExportItem.callable (HStep.done none)))) 0
        { idx := -1, log := [], ov := none } = _
    rw [filterMap_callableFn_replicate]
    rw [runAt_idle (some fNr) req n 0 { idx := -1, log := [], ov := none }
        (by show (-1 : Int) < ((0 : Nat) : Int); decide)]
    congr 1
    show ChainSt.mk _ _ _ = ChainSt.mk _ _ _
    congr 1
    · push_cast; omega
    · rw [List.range_eq_range']
      rfl
  · rw [List.count_append]
    have h1 : ((List.range n).map Event.enter).count Event.finalNext = 0 := by
      rw [List.count_eq_zero]
      simp
    rw [h1]
    rfl

/-- Claim C4 (confirmed): within one chain run, invoking the continuation
with an index not greater than the maximum index already reached (the
`i <= idx` guard, src lines 292-294) raises the chain protocol error
`"next() called multiple times"` and leaves the state — the log
included — unchanged, so no further link of the chain executes; the
second conjunct runs a whole two-link chain whose first handler calls
its continuation twice and shows the run ends in the protocol error with
no handler entered after the reinvocation and the final continuation
never reached. -/
theorem chain_next_reinvocation_error :
    (∀ {V R : Type} [DecidableEq R] (suffix : List (HStep V R))
        (fN : Option (Option V)) (req : R) (i : Nat) (st : ChainSt R),
        (i : Int) ≤ st.idx →
        runAt fN req suffix i st = (.error .nextCalledMultipleTimes, st)) ∧
    chainRun
        (.arr [.callable (.callNext none (fun _ =>
            .callNext none (fun _ => .done (some 7)))),
          .callable (.done (some 9))] : CFExported Nat Unit)
        (some (some 0)) () =
      (.error .nextCalledMultipleTimes,
        { idx := 1, log := [Event.enter 0, Event.enter 1], ov := none }) := by
  constructor
  · intro V R instR suffix fN req i st h
    unfold runAt
    rw [if_pos h]
  · rfl

/-- Claim C4 witness: the guard theorem applied to a state whose maximum
reached index is already `3`. -/
theorem chain_next_reinvocation_error_witness :
    runAt (some (some (5 : Nat))) () ([] : List (HStep Nat Unit)) 0
        { idx := 3, log := [], ov := none } =
      (.error .nextCalledMultipleTimes, { idx := 3, log := [], ov := none }) :=
  chain_next_reinvocation_error.1 [] (some (some 5)) () 0
    { idx := 3, log := [], ov := none } (by decide)

/-- Claim C10 (confirmed): composing an ordered handler export drops every
non-callable entry (the chain equals the chain of the callable entries,
kept in their original order), and an export consisting entirely of
non-callable entries yields an empty chain whose run immediately invokes
the final continuation when one is supplied — resolving to its result —
and resolves to no value when none is supplied. -/
theorem chain_noncallable_dropped {V R : Type} [DecidableEq R]
    (fs : List (CFExportItem V R)) (fN : Option (Option V)) (req : R) :
    composeCFChain (.arr fs) =
      composeCFChain (.arr (fs.filter (fun f => f.isCallable))) ∧
    ((∀ f ∈ fs, f = CFExportItem.notCallable) →
      chainRun (.arr fs) fN req =
        (.ok (fNres fN), { idx := 0, log := finalEv fN, ov := none })) := by
  constructor
  · show List.filterMap callableFn fs =
      List.filterMap callableFn (fs.filter (fun f => f.isCallable))
    induction fs with
    | nil => rfl
    | cons f t ih =>
        cases f with
        | callable h =>
            simp [List.filterMap_cons, List.filter_cons,
              CFExportItem.isCallable, callableFn, ih]
        | notCallable =>
            simp [List.filterMap_cons, List.filter_cons,
              CFExportItem.isCallable, callableFn, ih]
  · intro hall
    show runAt fN req (List.filterMap callableFn fs) 0
        { idx := -1, log := [], ov := none } = _
    rw [filterMap_callableFn_nil fs hall]
    cases fN with
    | some r => rfl
    | none => rfl

/-- Claim C10 witness: an export of two non-callable entries with a
supplied final continuation. -/
theorem chain_noncallable_dropped_witness :
    chainRun (.arr ([.notCallable, .notCallable] :
        List (CFExportItem Nat Unit))) (some (some 3)) () =
      (.ok (some 3), { idx := 0, log := [Event.finalNext], ov := none }) :=
  (chain_noncallable_dropped [.notCallable, .notCallable]
      (some (some 3)) ()).2
    (by
      intro f hf
      rcases List.mem_cons.mp hf with h | h
      · exact h
      · rcases List.mem_cons.mp h with h2 | h2
        · exact h2
        · exact absurd h2 (List.not_mem_nil f))

/-- Claim C3 (counterexample): in a one-handler chain whose handler calls
its continuation and returns no value, with a final continuation
resolving to `some 42`, the chain's result at position `0` is `none`
(src line 334 returns the handler's own `undefined`), not the
continuation's resolved result `some 42` obtained by running positions
`1` onward. -/
theorem chain_next_result_discarded_cex :
    (chainRun (.arr [.callable (.callNext none (fun _ => .done none))] :
        CFExported Nat Unit) (some (some 42)) ()).1 = .ok none ∧
    (runAt (some (some 42)) () ([] : List (HStep Nat Unit)) 1
        { idx := 0, log := [Event.enter 0], ov := none }).1 =
      .ok (some 42) ∧
    (none : Option Nat) ≠ some 42 := by
  exact ⟨rfl, rfl, by decide⟩

/-- Claim C3 (amended): if the handler at position `i` invokes its
continuation and then returns no value, the chain's result at position
`i` is no value (`undefined`) — the continuation's resolved result `r`
is discarded, whatever it is; only the post-continuation state is kept. -/
theorem chain_next_result_discarded {V R : Type} [DecidableEq R]
    (rest : List (HStep V R)) (fN : Option (Option V)) (req : R)
    (ro : Option R) (k : Option V → HStep V R) (r : Option V) (i : Nat)
    (st st1 : ChainSt R)
    (hk : ∀ x, k x = .done none)
    (hlt : st.idx < (i : Int))
    (hrun : runAt fN req rest (i + 1)
        { idx := (i : Int), log := st.log ++ [Event.enter i]
          ov := applyOverride req st.ov ro } = (.ok r, st1)) :
    runAt fN req (HStep.callNext ro k :: rest) i st = (.ok none, st1) := by
  have hint : interpH (fun s => runAt fN req rest (i + 1) s) req
      (HStep.callNext ro k)
      { idx := (i : Int), log := st.log ++ [Event.enter i], ov := st.ov } =
      (.ok none, true, st1) := by
    simp only [interpH]
    rw [hrun]
    dsimp only
    rw [hk r]
    simp only [interpH]
  unfold runAt
  rw [if_neg (not_le.mpr hlt)]
  show (match interpH (fun s => runAt fN req rest (i + 1) s) req
      (HStep.callNext ro k)
      { idx := (i : Int), log := st.log ++ [Event.enter i], ov := st.ov } with
    | (.error e, _, st2) => (Except.error e, st2)
    | (.ok out, called, st2) =>
        match out with
        | some v => (Except.ok (some v), st2)
        | none =>
            if called then (Except.ok none, st2)
            else runAt fN req rest (i + 1) st2) = (.ok none, st1)
  rw [hint]
  rfl

/-- Claim C3 witness: the amended theorem applied to a one-handler chain
whose continuation resolves to `some 42` — the chain result is still
`none`. -/
theorem chain_next_result_discarded_witness :
    runAt (some (some 42)) ()
        [HStep.callNext (none : Option Unit) (fun _ => HStep.done none)] 0
        { idx := -1, log := [], ov := none } =
      (.ok (none : Option Nat),
        { idx := 1, log := [Event.enter 0, Event.finalNext], ov := none }) :=
  chain_next_result_discarded [] (some (some 42)) () none
    (fun _ => HStep.done none) (some 42) 0
    { idx := -1, log := [], ov := none }
    { idx := 1, log := [Event.enter 0, Event.finalNext], ov := none }
    (fun _ => rfl)
    (by show (-1 : Int) < ((0 : Nat) : Int); decide)
    rfl
